import Mathlib

/-
Verification development for the Wiktionary lexicon builder
(build_wiktionary_lexicon.py).  The markup-interpretation core is embedded
shallowly: strings are lists of characters, the regular-expression based
cleanup stages become explicit scanners with an explicit fuel argument
(fuel := length + 1 always suffices, since every step consumes at least one
character), and the template engine, section isolation and sense extraction
follow the source line by line.
-/

/-- Python str whitespace (ASCII): space, tab, newline, carriage return,
vertical tab, form feed. -/
def pyIsSpace (c : Char) : Bool :=
  c == ' ' || c == '\t' || c == '\n' || c == '\r' || c == Char.ofNat 11 || c == Char.ofNat 12

/-- Python str.strip(): drop leading and trailing whitespace. -/
def pyStrip (l : List Char) : List Char :=
  ((l.dropWhile pyIsSpace).reverse.dropWhile pyIsSpace).reverse

/-- Python str.lower() (ASCII). -/
def pyLower (l : List Char) : List Char := l.map Char.toLower

/-- Python str.capitalize(): first character uppercased, the rest lowercased. -/
def pyCapitalize (l : List Char) : List Char :=
  match l with
  | [] => []
  | c :: r => Char.toUpper c :: r.map Char.toLower

/-- One pass of re.sub(WS_RE, single space): the Bool flag records whether we
are inside a whitespace run whose replacement space was already emitted. -/
def wsSubGo : Bool → List Char → List Char
  | _, [] => []
  | inRun, c :: r =>
    if pyIsSpace c then
      if inRun then wsSubGo true r else ' ' :: wsSubGo true r
    else c :: wsSubGo false r

/-- WS_RE.sub(" ", s): collapse each whitespace run to a single space. -/
def wsSub (l : List Char) : List Char := wsSubGo false l

/-- WS_RE.sub(" ", s).strip(), the normalization applied after each
template-expansion pass. -/
def wsNorm (l : List Char) : List Char := pyStrip (wsSub l)

/-- Python substring containment (`pat in s`) for a nonempty pattern. -/
def containsSub (pat : List Char) : List Char → Bool
  | [] => pat.isPrefixOf []
  | c :: r => pat.isPrefixOf (c :: r) || containsSub pat r

/-- Python sep.join(parts). -/
def joinSep (sep : List Char) : List (List Char) → List Char
  | [] => []
  | [x] => x
  | x :: y :: r => x ++ sep ++ joinSep sep (y :: r)

/-- MEANINGFUL_RE.search: the text contains an ASCII alphanumeric character. -/
def containsAlnum (l : List Char) : Bool := l.any Char.isAlphanum

def tplOpenPat : List Char := ['{', '{']
def tplClosePat : List Char := ['}', '}']
def linkOpenPat : List Char := ['[', '[']
def tableOpenPat : List Char := ['{', '|']
def tableClosePat : List Char := ['|', '}']
def quoteChar : Char := Char.ofNat 39

/-- Loop body of split_template_parts: scan the body keeping independent
nesting depths for templates and wikilinks; a separator bar at depth (0,0)
finishes the current (stripped) part.  buf holds the current part reversed. -/
def splitPartsGo : Nat → List Char → Nat → Nat → List Char → List (List Char)
  | 0, _, _, _, buf => [pyStrip buf.reverse]
  | fuel+1, s, dt, dl, buf =>
    if tplOpenPat.isPrefixOf s then
      splitPartsGo fuel (s.drop 2) (dt+1) dl ('{' :: '{' :: buf)
    else if tplClosePat.isPrefixOf s && decide (0 < dt) then
      splitPartsGo fuel (s.drop 2) (dt-1) dl ('}' :: '}' :: buf)
    else if linkOpenPat.isPrefixOf s then
      splitPartsGo fuel (s.drop 2) dt (dl+1) ('[' :: '[' :: buf)
    else if (']' :: [']']).isPrefixOf s && decide (0 < dl) then
      splitPartsGo fuel (s.drop 2) dt (dl-1) (']' :: ']' :: buf)
    else
      match s with
      | [] => [pyStrip buf.reverse]
      | c :: r =>
        if c == '|' && dt == 0 && dl == 0 then
          pyStrip buf.reverse :: splitPartsGo fuel r dt dl []
        else
          splitPartsGo fuel r dt dl (c :: buf)

/-- split_template_parts on character lists. -/
def splitPartsL (s : List Char) : List (List Char) :=
  splitPartsGo (s.length + 1) s 0 0 []

/-- split_template_parts: split a template body on bars that are not inside
a nested template or wikilink span. -/
def split_template_parts (s : String) : List String :=
  (splitPartsL s.data).map (fun l => String.mk l)

/-- Helper first_arg of render_template, for a single index: the stripped
argument at that index, or empty.  (In the source, first_arg reads the raw
args list, not the language-dropped args2.) -/
def first_arg (args : List (List Char)) (ix : Nat) : List Char :=
  pyStrip ((args.drop ix).headD [])

/-- Python `a or b` on strings: b when a is empty. -/
def pyOr (a b : List Char) : List Char := if a.isEmpty then b else a

/-- Is this argument a language-code marker ("en"/"eng"/"english")? -/
def isLangCode (x : List Char) : Bool :=
  let v := pyLower (pyStrip x)
  v == ("en".data) || v == ("eng".data) || v == ("english".data)

/-- Helper drop_lang_prefix of render_template: drop a leading
language-code argument. -/
def drop_lang_code : List (List Char) → List (List Char)
  | [] => []
  | x :: r => if isLangCode x then r else x :: r

/-- The target of a relation-of template in the source:
`first_arg(0) or first_arg(1)` over the raw args list. -/
def relTarget (args : List (List Char)) : List Char :=
  pyOr (first_arg args 0) (first_arg args 1)

/-- render_template on character lists, mirroring the dispatch chain of the
source (including that the relation branches and the fallback read the raw
args list, while only the label branch uses the language-dropped args2). -/
def renderTemplateL (name : List Char) (args : List (List Char)) : List Char :=
  let n := pyLower (pyStrip name)
  let args2 := drop_lang_code args
  if n == ("lb".data) || n == ("lbl".data) || n == ("label".data) || n == ("labels".data) then
    let labs := (args2.map pyStrip).filter (fun x => !x.isEmpty)
    if labs.isEmpty then [] else '(' :: (joinSep (", ".data) (labs.take 6) ++ [')'])
  else if n == ("abbreviation of".data) || n == ("abbr of".data) then
    pyStrip (("Abbreviation of ".data) ++ relTarget args)
  else if n == ("initialism of".data) || n == ("init of".data) then
    pyStrip (("Initialism of ".data) ++ relTarget args)
  else if n == ("acronym of".data) then
    pyStrip (("Acronym of ".data) ++ relTarget args)
  else if n == ("alternative form of".data) || n == ("alternative spelling of".data)
      || n == ("alt form".data) || n == ("alt spelling".data) then
    pyStrip (("Alternative form of ".data) ++ relTarget args)
  else if n == ("misspelling of".data) then
    pyStrip (("Misspelling of ".data) ++ relTarget args)
  else if n == ("plural of".data) || n == ("pl of".data) then
    pyStrip (("Plural of ".data) ++ relTarget args)
  else if n == ("past of".data) || n == ("past tense of".data) then
    pyStrip (("Past tense of ".data) ++ relTarget args)
  else if n == ("present participle of".data) || n == ("pres part of".data) then
    pyStrip (("Present participle of ".data) ++ relTarget args)
  else if n == ("comparative of".data) then
    pyStrip (("Comparative of ".data) ++ relTarget args)
  else if n == ("superlative of".data) then
    pyStrip (("Superlative of ".data) ++ relTarget args)
  else if n == ("surname".data) || n == ("given name".data) then
    pyCapitalize name
  else if n == ("taxlink".data) || n == ("taxfmt".data) || n == ("taxon".data)
      || n == ("taxlite".data) then
    first_arg args 0
  else if n == ("l".data) || n == ("link".data) || n == ("m".data) || n == ("mention".data) then
    if !args2.isEmpty then first_arg args 0 else first_arg args 0
  else if n == ("gloss".data) then
    let g := first_arg args 0
    if !g.isEmpty then '(' :: (g ++ [')']) else []
  else
    if !args2.isEmpty then first_arg args 0 else first_arg args 0

/-- render_template: render one template invocation to plain text. -/
def render_template (name : String) (args : List String) : String :=
  String.mk (renderTemplateL name.data (args.map String.data))

/-- Inner scan of replace_templates_nested: find the close matching an
already-seen open (depth starts at 1), returning the span between the outer
markers and the remainder after the close; none when unbalanced. -/
def tplBodyGo : Nat → List Char → Nat → List Char → Option (List Char × List Char)
  | 0, _, _, _ => none
  | fuel+1, l, depth, acc =>
    if tplOpenPat.isPrefixOf l then
      tplBodyGo fuel (l.drop 2) (depth+1) ('{' :: '{' :: acc)
    else if tplClosePat.isPrefixOf l then
      if depth == 1 then some (acc.reverse, l.drop 2)
      else tplBodyGo fuel (l.drop 2) (depth-1) ('}' :: '}' :: acc)
    else
      match l with
      | [] => none
      | c :: r => tplBodyGo fuel r depth (c :: acc)

/-- One pass of replace_templates_nested: scan left to right; each balanced
outermost template span is split, rendered and spliced in; an unmatched open
marker is carried through one character at a time.  Returns the rebuilt text
and the changed flag. -/
def passGo : Nat → List Char → (List Char × Bool)
  | 0, l => (l, false)
  | _+1, [] => ([], false)
  | fuel+1, c :: r =>
    if tplOpenPat.isPrefixOf (c :: r) then
      match tplBodyGo ((c :: r).length + 1) ((c :: r).drop 2) 1 [] with
      | some (inner, rest) =>
        let body := pyStrip inner
        let parts := splitPartsL body
        let name := parts.headD []
        let args := parts.tail
        let rendered := renderTemplateL name args
        let out := passGo fuel rest
        (rendered ++ out.fst, true)
      | none =>
        let out := passGo fuel r
        (c :: out.fst, out.snd)
    else
      let out := passGo fuel r
      (c :: out.fst, out.snd)

/-- The pass loop of replace_templates_nested: up to max_passes passes, each
followed by whitespace normalization; stop early when a pass changed
nothing. -/
def rtnLoop : Nat → List Char → List Char
  | 0, s => s
  | n+1, s =>
    let out := passGo (s.length + 1) s
    let s2 := wsNorm out.fst
    if out.snd then rtnLoop n s2 else s2

/-- replace_templates_nested on character lists (max_passes = 4); text
without an open marker is returned untouched. -/
def replaceTemplatesNestedL (s : List Char) : List Char :=
  if containsSub tplOpenPat s then rtnLoop 4 s else s

/-- replace_templates_nested: expand nested template invocations. -/
def replace_templates_nested (s : String) : String :=
  String.mk (replaceTemplatesNestedL s.data)

/-- Find the first occurrence of pat, returning the text before it and the
text after it. -/
def findSub (pat : List Char) : Nat → List Char → Option (List Char × List Char)
  | 0, _ => none
  | fuel+1, l =>
    if pat.isPrefixOf l then some ([], l.drop pat.length)
    else
      match l with
      | [] => none
      | c :: r =>
        match findSub pat fuel r with
        | none => none
        | some (b, a) => some (c :: b, a)

/-- Case-insensitive prefix test (pat given in lowercase). -/
def ciStarts (pat : List Char) (l : List Char) : Bool :=
  pyLower (l.take pat.length) == pat

/-- Case-insensitive findSub (pat given in lowercase). -/
def findSubCI (pat : List Char) : Nat → List Char → Option (List Char × List Char)
  | 0, _ => none
  | fuel+1, l =>
    if ciStarts pat l then some ([], l.drop pat.length)
    else
      match l with
      | [] => none
      | c :: r =>
        match findSubCI pat fuel r with
        | none => none
        | some (b, a) => some (c :: b, a)

/-- Regex word character, for the word-boundary assertion after "<ref". -/
def isWordChar (c : Char) : Bool := c.isAlphanum || c == '_'

/-- The word-boundary assertion holds before this remainder. -/
def boundaryOk (l : List Char) : Bool :=
  match l with
  | [] => true
  | c :: _ => !isWordChar c

/-- HTML_COMMENT_RE.sub(""): drop each comment opener together with
everything up to the first following closer; an opener with no closer is
left as literal text. -/
def removeCommentsGo : Nat → List Char → List Char
  | 0, l => l
  | fuel+1, l =>
    if ("<!--".data).isPrefixOf l then
      match findSub ("-->".data) (l.length + 1) (l.drop 4) with
      | some (_, after) => removeCommentsGo fuel after
      | none =>
        match l with
        | [] => []
        | c :: r => c :: removeCommentsGo fuel r
    else
      match l with
      | [] => []
      | c :: r => c :: removeCommentsGo fuel r

def removeComments (l : List Char) : List Char := removeCommentsGo (l.length + 1) l

/-- REF_BLOCK_RE.sub(""): remove a case-insensitive ref element: the open
tag may contain no '>' or '/' before its closing '>', and the body runs to
the first "</ref>". -/
def removeRefBlocksGo : Nat → List Char → List Char
  | 0, l => l
  | fuel+1, l =>
    if ciStarts ("<ref".data) l && boundaryOk (l.drop 4) then
      let rest := l.drop 4
      let seg := rest.takeWhile (fun c => c != '>' && c != '/')
      match rest.drop seg.length with
      | '>' :: tail =>
        match findSubCI ("</ref>".data) (tail.length + 1) tail with
        | some (_, after) => removeRefBlocksGo fuel after
        | none =>
          match l with
          | [] => []
          | c :: r => c :: removeRefBlocksGo fuel r
      | _ =>
        match l with
        | [] => []
        | c :: r => c :: removeRefBlocksGo fuel r
    else
      match l with
      | [] => []
      | c :: r => c :: removeRefBlocksGo fuel r

def removeRefBlocks (l : List Char) : List Char := removeRefBlocksGo (l.length + 1) l

/-- REF_SELF_RE.sub(""): remove a self-closing ref tag: no '>' inside, and
the last non-whitespace character before the closing '>' is '/'. -/
def removeRefSelfGo : Nat → List Char → List Char
  | 0, l => l
  | fuel+1, l =>
    if ciStarts ("<ref".data) l && boundaryOk (l.drop 4) then
      let rest := l.drop 4
      let seg := rest.takeWhile (fun c => c != '>')
      match rest.drop seg.length with
      | '>' :: tail =>
        match seg.reverse.dropWhile pyIsSpace with
        | '/' :: _ => removeRefSelfGo fuel tail
        | _ =>
          match l with
          | [] => []
          | c :: r => c :: removeRefSelfGo fuel r
      | _ =>
        match l with
        | [] => []
        | c :: r => c :: removeRefSelfGo fuel r
    else
      match l with
      | [] => []
      | c :: r => c :: removeRefSelfGo fuel r

def removeRefSelf (l : List Char) : List Char := removeRefSelfGo (l.length + 1) l

/-- NOWIKI_RE / MATH_RE .sub(""): remove an element of the given tag (open
tag runs to its first '>', body to the first matching end tag), both given
in lowercase. -/
def removeTagBlockGo (opener : List Char) (closer : List Char) : Nat → List Char → List Char
  | 0, l => l
  | fuel+1, l =>
    if ciStarts opener l && boundaryOk (l.drop opener.length) then
      let rest := l.drop opener.length
      let seg := rest.takeWhile (fun c => c != '>')
      match rest.drop seg.length with
      | '>' :: tail =>
        match findSubCI closer (tail.length + 1) tail with
        | some (_, after) => removeTagBlockGo opener closer fuel after
        | none =>
          match l with
          | [] => []
          | c :: r => c :: removeTagBlockGo opener closer fuel r
      | _ =>
        match l with
        | [] => []
        | c :: r => c :: removeTagBlockGo opener closer fuel r
    else
      match l with
      | [] => []
      | c :: r => c :: removeTagBlockGo opener closer fuel r

def removeNowiki (l : List Char) : List Char :=
  removeTagBlockGo ("<nowiki".data) ("</nowiki>".data) (l.length + 1) l

def removeMath (l : List Char) : List Char :=
  removeTagBlockGo ("<math".data) ("</math>".data) (l.length + 1) l

/-- WIKITABLE_RE.sub(""): remove each table-open marker together with
everything up to the first following table-close marker. -/
def removeTablesGo : Nat → List Char → List Char
  | 0, l => l
  | fuel+1, l =>
    if tableOpenPat.isPrefixOf l then
      match findSub tableClosePat (l.length + 1) (l.drop 2) with
      | some (_, after) => removeTablesGo fuel after
      | none =>
        match l with
        | [] => []
        | c :: r => c :: removeTablesGo fuel r
    else
      match l with
      | [] => []
      | c :: r => c :: removeTablesGo fuel r

def removeTables (l : List Char) : List Char := removeTablesGo (l.length + 1) l

/-- _link_sub of clean_wikitext: choose display text over the target, and
drop non-content namespace links entirely. -/
def linkRepl (t1 : List Char) (t2 : Option (List Char)) : List Char :=
  let target := pyStrip t1
  let text := pyStrip (match t2 with | some t => t | none => [])
  let chosen := if !text.isEmpty then text else target
  if ("File:".data).isPrefixOf chosen || ("File:".data).isPrefixOf target
      || ("Image:".data).isPrefixOf chosen || ("Image:".data).isPrefixOf target
      || ("Category:".data).isPrefixOf chosen || ("Category:".data).isPrefixOf target then
    []
  else chosen

/-- WIKILINK_RE.sub(_link_sub): resolve well-formed link spans; anything
else is copied through. -/
def wikilinksGo : Nat → List Char → List Char
  | 0, l => l
  | fuel+1, l =>
    if linkOpenPat.isPrefixOf l then
      let rest := l.drop 2
      let t1 := rest.takeWhile (fun c => c != '|' && c != ']')
      if t1.isEmpty then
        match l with
        | [] => []
        | c :: r => c :: wikilinksGo fuel r
      else
        match rest.drop t1.length with
        | ']' :: ']' :: after => linkRepl t1 none ++ wikilinksGo fuel after
        | '|' :: r2 =>
          let t2 := r2.takeWhile (fun c => c != ']')
          if t2.isEmpty then
            match l with
            | [] => []
            | c :: r => c :: wikilinksGo fuel r
          else
            match r2.drop t2.length with
            | ']' :: ']' :: after => linkRepl t1 (some t2) ++ wikilinksGo fuel after
            | _ =>
              match l with
              | [] => []
              | c :: r => c :: wikilinksGo fuel r
        | _ =>
          match l with
          | [] => []
          | c :: r => c :: wikilinksGo fuel r
    else
      match l with
      | [] => []
      | c :: r => c :: wikilinksGo fuel r

def wikilinks (l : List Char) : List Char := wikilinksGo (l.length + 1) l

/-- Lazy search for the bracketing quote run of ITALIC_BOLD_RE: the first
position (before any newline) where q consecutive quotes start; returns
the middle text and the remainder after the closing run. -/
def findQuoteRun (q : Nat) : Nat → List Char → Option (List Char × List Char)
  | 0, _ => none
  | fuel+1, l =>
    if (List.replicate q quoteChar).isPrefixOf l then some ([], l.drop q)
    else
      match l with
      | [] => none
      | c :: r =>
        if c == '\n' then none
        else
          match findQuoteRun q fuel r with
          | none => none
          | some (m, a) => some (c :: m, a)

/-- Backtracking over the opening-run length of ITALIC_BOLD_RE, longest
first, down to 2. -/
def italicTry : Nat → List Char → Option (List Char × List Char)
  | 0, _ => none
  | 1, _ => none
  | q+2, l =>
    match findQuoteRun (q+2) (l.length + 1) (l.drop (q+2)) with
    | some r => some r
    | none => italicTry (q+1) l

/-- ITALIC_BOLD_RE.sub(group 2): replace each emphasis span by its inner
text. -/
def italicsGo : Nat → List Char → List Char
  | 0, l => l
  | _+1, [] => []
  | fuel+1, c :: r =>
    if c == quoteChar then
      let run := (c :: r).takeWhile (fun d => d == quoteChar)
      match italicTry (min 5 run.length) (c :: r) with
      | some (m, a) => m ++ italicsGo fuel a
      | none => c :: italicsGo fuel r
    else c :: italicsGo fuel r

def italics (l : List Char) : List Char := italicsGo (l.length + 1) l

/-- TAG_RE.sub(""): remove each maximal-free span from '<' to the first
following '>' with at least one character between. -/
def removeTagsGo : Nat → List Char → List Char
  | 0, l => l
  | _+1, [] => []
  | fuel+1, c :: r =>
    if c == '<' then
      let seg := r.takeWhile (fun d => d != '>')
      if seg.isEmpty then c :: removeTagsGo fuel r
      else
        match r.drop seg.length with
        | '>' :: after => removeTagsGo fuel after
        | _ => c :: removeTagsGo fuel r
    else c :: removeTagsGo fuel r

def removeTags (l : List Char) : List Char := removeTagsGo (l.length + 1) l

/-- Python str.replace(pat, rep) for a nonempty pattern. -/
def replaceAllGo (pat rep : List Char) : Nat → List Char → List Char
  | 0, l => l
  | fuel+1, l =>
    if pat.isPrefixOf l && !pat.isEmpty then
      rep ++ replaceAllGo pat rep fuel (l.drop pat.length)
    else
      match l with
      | [] => []
      | c :: r => c :: replaceAllGo pat rep fuel r

def replaceAll (pat rep : List Char) (l : List Char) : List Char :=
  replaceAllGo pat rep (l.length + 1) l

def punctList : List Char := [',', ';', ':', '.', '!', '?']

/-- re.sub(whitespace-run before punctuation, punctuation): drop each
whitespace run that immediately precedes one of the punctuation marks. -/
def punctSpaceGo : Nat → List Char → List Char
  | 0, l => l
  | _+1, [] => []
  | fuel+1, c :: r =>
    if pyIsSpace c then
      let run := (c :: r).takeWhile pyIsSpace
      match (c :: r).drop run.length with
      | d :: rest =>
        if punctList.contains d then d :: punctSpaceGo fuel rest
        else run ++ punctSpaceGo fuel (d :: rest)
      | [] => run
    else c :: punctSpaceGo fuel r

def punctSpace (l : List Char) : List Char := punctSpaceGo (l.length + 1) l

/-- clean_wikitext on character lists: the fixed cleanup pipeline of the
source, ending with the meaningfulness check. -/
def cleanL (s : List Char) : List Char :=
  if s.isEmpty then []
  else
    let s1 := removeComments s
    let s2 := removeRefBlocks s1
    let s3 := removeRefSelf s2
    let s4 := removeNowiki s3
    let s5 := removeMath s4
    let s6 := removeTables s5
    let s7 := replaceTemplatesNestedL s6
    let s8 := wikilinks s7
    let s9 := italics s8
    let s10 := removeTags s9
    let s11 := pyStrip (wsSub s10)
    let s12 := replaceAll (" )".data) (")".data) s11
    let s13 := replaceAll ("( ".data) ("(".data) s12
    let s14 := punctSpace s13
    if containsAlnum s14 then s14 else []

/-- clean_wikitext: pragmatic cleanup of one definition line. -/
def clean_wikitext (s : String) : String :=
  String.mk (cleanL s.data)

/-- Python str.splitlines restricted to newline separators: split on each
newline, without a trailing empty line for text ending in a newline. -/
def splitOnNl : List Char → List (List Char)
  | [] => [[]]
  | '\n' :: r => [] :: splitOnNl r
  | c :: r =>
    match splitOnNl r with
    | [] => [[c]]
    | p :: ps => (c :: p) :: ps

def splitlines (l : List Char) : List (List Char) :=
  match l with
  | [] => []
  | _ =>
    let parts := splitOnNl l
    match parts.getLast? with
    | some [] => parts.dropLast
    | _ => parts

/-- The group of HEAD2_RE/HEAD3_RE/HEAD4_RE (k equals signs on both sides)
on an already stripped line: the line is the markers around a nonempty
middle free of equals signs; the group is the trimmed middle. -/
def headGroup (k : Nat) (t : List Char) : Option (List Char) :=
  let middle := (t.drop k).take (t.length - 2*k)
  if (t.take k == List.replicate k '=') && (t.drop (t.length - k) == List.replicate k '=')
      && !middle.isEmpty && !(middle.contains '=') && decide (2*k + 1 ≤ t.length) then
    some (pyStrip middle)
  else none

/-- Does this (raw) line match HEAD2_RE after stripping? -/
def isHead2 (l : List Char) : Bool := (headGroup 2 (pyStrip l)).isSome

/-- Does this (raw) line carry the ==English== heading? -/
def isEnglishHead (l : List Char) : Bool :=
  match headGroup 2 (pyStrip l) with
  | some g => pyStrip g == ("English".data)
  | none => false

/-- extract_english_section on character lists: the lines strictly after
the first ==English== heading and strictly before the next level-2 heading
(or end of text), rejoined with newlines; none without such a heading. -/
def extractEnglishSectionL (w : List Char) : Option (List Char) :=
  if w.isEmpty then none
  else
    let lines := splitlines w
    match lines.findIdx? isEnglishHead with
    | none => none
    | some i =>
      some (joinSep (['\n']) ((lines.drop (i+1)).takeWhile (fun l => !isHead2 l)))

/-- extract_english_section: the ==English== section of a page, if any. -/
def extract_english_section (w : String) : Option String :=
  (extractEnglishSectionL w.data).map (fun l => String.mk l)

/-- A part-of-speech sense group. -/
structure Sense where
  pos : String
  definitions : List String
deriving DecidableEq, Repr

/-- Python truthiness of the current_pos variable (None and "" are falsy). -/
def cpTruthy (cp : Option (List Char)) : Bool :=
  match cp with
  | some p => !p.isEmpty
  | none => false

/-- flush() of extract_senses: emit a Sense when a truthy part of speech
has accumulated at least one definition, capping the list at m. -/
def flushSense : Option (List Char) → List (List Char) → Nat → List Sense
  | some p, cd, m =>
    if !p.isEmpty && !cd.isEmpty then [⟨String.mk p, (cd.take m).map (fun d => String.mk d)⟩]
    else []
  | none, _, _ => []

/-- Is this definition line an example/usage sub-line? -/
def isExampleLine (l : List Char) : Bool :=
  ("#:".data).isPrefixOf l || ("#*".data).isPrefixOf l
    || ("##:".data).isPrefixOf l || ("##*".data).isPrefixOf l

/-- DEF_MARKER_RE.sub(""): strip the leading definition markers and the
whitespace after them. -/
def stripDefMarker (l : List Char) : List Char :=
  match l with
  | '#' :: r => (r.dropWhile (fun c => c == '#')).dropWhile pyIsSpace
  | _ => l

/-- The line loop of extract_senses: heading lines flush and reset the
state, definition lines are cleaned and accumulated under a truthy allowed
part of speech, and a stray level-2 heading terminates the scan early
(flushing, as the source's break falls through to the final flush). -/
def sensesGo (allowed : List String) (m : Nat) :
    List (List Char) → Option (List Char) → List (List Char) → List Sense
  | [], cp, cd => flushSense cp cd m
  | raw :: rest, cp, cd =>
    let line := pyStrip raw
    if line.isEmpty then sensesGo allowed m rest cp cd
    else
      let h3 := headGroup 3 line
      let h4 := headGroup 4 line
      if h3.isSome || h4.isSome then
        let pos := pyStrip (match h3 with | some g => g | none => h4.getD [])
        let cp' := if allowed.contains (String.mk pos) then some pos else none
        flushSense cp cd m ++ sensesGo allowed m rest cp' []
      else if !cpTruthy cp then sensesGo allowed m rest cp cd
      else if ("#".data).isPrefixOf line then
        if isExampleLine line then sensesGo allowed m rest cp cd
        else
          let text := cleanL (stripDefMarker line)
          if !text.isEmpty && containsAlnum text then sensesGo allowed m rest cp (cd ++ [text])
          else sensesGo allowed m rest cp cd
      else if (("==".data).isPrefixOf line) && (("==".data).isSuffixOf line) then
        flushSense cp cd m
      else sensesGo allowed m rest cp cd

/-- extract_senses: the senses of one (already isolated) language
section. -/
def extract_senses (text : String) (allowed : List String) (m : Nat) : List Sense :=
  sensesGo allowed m (splitlines text.data) none []

/-- The default allowed part-of-speech headings (DEFAULT_POS, sorted as by
the CLI default). -/
def DEFAULT_POS : List String :=
  ["Adjective", "Adverb", "Noun", "Proper noun", "Verb"]

/-- ALPHA_RE: a nonempty all-ASCII-letter title. -/
def isAlphaTitle (t : List Char) : Bool := !t.isEmpty && t.all Char.isAlpha

/-- One output record: the uppercased word and its senses. -/
structure WordRecord where
  word : String
  senses : List Sense
deriving DecidableEq, Repr

/-- The per-page body of the main loop: skip empty or non-alphabetic
titles and out-of-range lengths, isolate the English section, extract
senses, and build the record with the uppercased title. -/
def process_page (minLen maxLen : Nat) (allowed : List String) (m : Nat)
    (title text : String) : Option WordRecord :=
  if title.data.isEmpty then none
  else if !isAlphaTitle title.data then none
  else if title.data.length < minLen || maxLen < title.data.length then none
  else
    match extractEnglishSectionL text.data with
    | none => none
    | some eng =>
      if eng.isEmpty then none
      else
        let senses := sensesGo allowed m (splitlines eng) none []
        if senses.isEmpty then none
        else some ⟨String.mk (title.data.map Char.toUpper), senses⟩

/-- The main loop body under the default configuration (min length 2, max
length 25, default POS set, 3 definitions per sense). -/
def process_page_default (title text : String) : Option WordRecord :=
  process_page 2 25 DEFAULT_POS 3 title text

/-
Theorems for the frozen claims.
-/

/-- A template invocation nested six levels deep: deeper than the four
expansion passes of replace_templates_nested. -/
def deepNest : String :=
  "\x7b\x7ba|\x7b\x7ba|\x7b\x7ba|\x7b\x7ba|\x7b\x7ba|\x7b\x7ba|w\x7d\x7d\x7d\x7d\x7d\x7d\x7d\x7d\x7d\x7d\x7d\x7d"

/-- C1 counterexample: clean_wikitext is not idempotent.  On a template
nested six levels deep the four expansion passes leave an unexpanded
residue, and a second application of clean_wikitext expands it further. -/
theorem c1_clean_not_idempotent :
    clean_wikitext (clean_wikitext deepNest) ≠ clean_wikitext deepNest := by decide

/-- C2: evaluation at the failing input.  The source's first_arg helper
reads the raw args list, not the language-dropped args2, so rendering
a plural-of invocation whose first argument is the language code "en"
yields "Plural of en", not the "Plural of cat" the specification states;
without the language argument the rendering is as specified. -/
theorem c2_plural_of_lang_arg :
    render_template "plural of" ["en", "cat"] = "Plural of en"
      ∧ render_template "plural of" ["cat"] = "Plural of cat" := by decide

/-- C3 counterexample: with seven labels the source joins only the first
six (labs[:6]), not all of the non-empty arguments as claimed. -/
theorem c3_label_seven_args :
    render_template "lb" ["en", "a1", "a2", "a3", "a4", "a5", "a6", "a7"]
        = "(a1, a2, a3, a4, a5, a6)"
      ∧ render_template "lb" ["en", "a1", "a2", "a3", "a4", "a5", "a6", "a7"]
        ≠ "(a1, a2, a3, a4, a5, a6, a7)" := by decide

/-- C4: evaluation at the failing input.  The unknown-template fallback
reads the raw args list (its two branches on args2 are identical), so
rendering an unknown template whose first argument is the language code
"en" yields "en", not the first argument after the language code; without
a language argument it yields the first argument as claimed. -/
theorem c4_unknown_fallback_lang_arg :
    render_template "foo" ["en", "bar"] = "en"
      ∧ render_template "foo" ["bar", "baz"] = "bar" := by decide

/-- C6: end to end, a page titled "cats" whose markup is an English
section with a Noun heading and the definition line "# {{plural of|cat}}"
produces, under the default configuration, exactly one record with word
"CATS" and one Noun sense defined as "Plural of cat". -/
theorem c6_end_to_end :
    process_page_default "cats" "==English==\n===Noun===\n# \x7b\x7bplural of|cat\x7d\x7d"
      = some ⟨"CATS", [⟨"Noun", ["Plural of cat"]⟩]⟩ := by decide

/-- C8 counterexample: with max_definitions_per_sense = 0 a flushed Sense
keeps an empty definition list, so the invariant that every Sense carries
at least one non-empty meaning-bearing definition fails. -/
theorem c8_sense_invariant_fails_at_zero :
    ¬ (∀ s ∈ extract_senses "===Noun===\n# cat" ["Noun"] 0,
        ∃ d ∈ s.definitions, d ≠ "" ∧ containsAlnum d.data = true) := by decide

/-- C10: split_template_parts splits on bars only at zero nesting depth,
tracking template and link depth independently: the spec's example plus a
wikilink variant and the source's own docstring example. -/
theorem c10_split_respects_nesting :
    split_template_parts "a|\x7b\x7bb|c\x7d\x7d|d" = ["a", "\x7b\x7bb|c\x7d\x7d", "d"]
      ∧ split_template_parts "a|[[b|c]]|d" = ["a", "[[b|c]]", "d"]
      ∧ split_template_parts "abbreviation of|en|International Business Machines"
        = ["abbreviation of", "en", "International Business Machines"] := by decide

/-- C5: section isolation.  For markup with ==English== followed by
==French==, exactly the lines strictly between the two headings are kept;
and whenever no line carries the ==English== heading, the function returns
none, so the page contributes nothing. -/
theorem c5_section_isolation :
    extract_english_section "pre\n==English==\nA\nB\n==French==\nC" = some "A\nB"
      ∧ ∀ w : String, (∀ l ∈ splitlines w.data, isEnglishHead l = false) →
          extract_english_section w = none := by
  constructor
  · decide
  · intro w h
    have hf : (splitlines w.data).findIdx? isEnglishHead = none := by
      rw [List.findIdx?_eq_none_iff]
      exact h
    unfold extract_english_section extractEnglishSectionL
    by_cases hw : w.data.isEmpty <;> simp [hw, hf]

/-- Witness for C5: a page with only a French section yields none. -/
theorem c5_section_isolation_witness :
    extract_english_section "==French==\nx" = none :=
  c5_section_isolation.2 "==French==\nx" (by decide)

theorem containsSub_tail {pat : List Char} {c : Char} {r : List Char}
    (h : containsSub pat (c :: r) = false) : containsSub pat r = false := by
  unfold containsSub at h
  simp only [Bool.or_eq_false_iff] at h
  exact h.2

theorem containsSub_head {pat : List Char} {l : List Char}
    (h : containsSub pat l = false) : pat.isPrefixOf l = false := by
  cases l with
  | nil => unfold containsSub at h; exact h
  | cons c r =>
    unfold containsSub at h
    simp only [Bool.or_eq_false_iff] at h
    exact h.1

theorem containsSub_drop {pat : List Char} (k : Nat) {l : List Char}
    (h : containsSub pat l = false) : containsSub pat (l.drop k) = false := by
  induction k generalizing l with
  | zero => simpa using h
  | succ k ih =>
    cases l with
    | nil => simpa using h
    | cons c r => exact ih (containsSub_tail h)

/-- Without a close marker anywhere, the matching-close scan fails. -/
theorem tplBodyGo_none (fuel : Nat) :
    ∀ (l : List Char) (depth : Nat) (acc : List Char),
      containsSub tplClosePat l = false → tplBodyGo fuel l depth acc = none := by
  induction fuel with
  | zero => intro l depth acc _; rfl
  | succ fuel ih =>
    intro l depth acc h
    unfold tplBodyGo
    rw [containsSub_head h]
    by_cases ho : tplOpenPat.isPrefixOf l
    · simp only [ho, if_true]
      exact ih (l.drop 2) (depth+1) _ (containsSub_drop 2 h)
    · simp only [ho, if_false, Bool.false_eq_true]
      cases l with
      | nil => rfl
      | cons c r => exact ih r depth _ (containsSub_tail h)

/-- Without a close marker anywhere, a pass copies the text through
character by character and reports no substitution. -/
theorem passGo_id (fuel : Nat) :
    ∀ l : List Char, containsSub tplClosePat l = false → passGo fuel l = (l, false) := by
  induction fuel with
  | zero => intro l _; rfl
  | succ fuel ih =>
    intro l h
    cases l with
    | nil => rfl
    | cons c r =>
      unfold passGo
      by_cases ho : tplOpenPat.isPrefixOf (c :: r)
      · simp only [ho, if_true]
        rw [tplBodyGo_none _ _ _ _ (containsSub_drop 2 h)]
        simp [ih r (containsSub_tail h)]
      · simp only [ho, if_false, Bool.false_eq_true]
        simp [ih r (containsSub_tail h)]

/-- C9: unbalanced template handling.  On any input containing an open
marker but no close marker at all, replace_templates_nested never fails:
the open markers are treated as literal text and the whole input is carried
through, up to the per-pass whitespace normalization.  A mixed input whose
balanced span is rendered while the trailing unmatched open marker is
carried through is checked by evaluation. -/
theorem c9_unbalanced_template :
    (∀ s : String, containsSub tplOpenPat s.data = true →
        containsSub tplClosePat s.data = false →
        replace_templates_nested s = String.mk (wsNorm s.data))
      ∧ replace_templates_nested "\x7b\x7bplural of|cat\x7d\x7d x \x7b\x7by"
          = "Plural of cat x \x7b\x7by" := by
  constructor
  · intro s ho hc
    unfold replace_templates_nested replaceTemplatesNestedL
    rw [ho]
    show String.mk (rtnLoop 4 s.data) = _
    unfold rtnLoop
    rw [passGo_id _ _ hc]
    rfl
  · decide

/-- Witness for C9: an unmatched open marker is carried through
literally. -/
theorem c9_unbalanced_template_witness :
    replace_templates_nested "ab\x7b\x7bcd" = String.mk (wsNorm ("ab\x7b\x7bcd".data)) :=
  c9_unbalanced_template.1 "ab\x7b\x7bcd" (by decide) (by decide)

theorem flushSense_length_le (cp : Option (List Char)) (cd : List (List Char)) (m : Nat) :
    ∀ s ∈ flushSense cp cd m, s.definitions.length ≤ m := by
  intro s hs
  cases cp with
  | none => exact (List.not_mem_nil s hs).elim
  | some p =>
    rw [show flushSense (some p) cd m
        = (if (!p.isEmpty && !cd.isEmpty) = true then
            [⟨String.mk p, (cd.take m).map (fun d => String.mk d)⟩] else []) from rfl] at hs
    by_cases hg : (!p.isEmpty && !cd.isEmpty) = true
    · rw [if_pos hg] at hs
      rcases List.mem_cons.1 hs with h | h
      · subst h
        simp [List.length_take]
      · exact (List.not_mem_nil s h).elim
    · rw [if_neg hg] at hs
      exact (List.not_mem_nil s hs).elim

theorem sensesGo_length_le (allowed : List String) (m : Nat) :
    ∀ (lines : List (List Char)) (cp : Option (List Char)) (cd : List (List Char)),
      ∀ s ∈ sensesGo allowed m lines cp cd, s.definitions.length ≤ m := by
  intro lines
  induction lines with
  | nil => intro cp cd s hs; exact flushSense_length_le cp cd m s hs
  | cons raw rest ih =>
    intro cp cd s hs
    simp only [sensesGo] at hs
    split at hs
    · exact ih cp cd s hs
    · split at hs
      · rcases List.mem_append.1 hs with h | h
        · exact flushSense_length_le _ _ _ s h
        · exact ih _ _ s h
      · split at hs
        · exact ih cp cd s hs
        · split at hs
          · split at hs
            · exact ih cp cd s hs
            · split at hs
              · exact ih _ _ s hs
              · exact ih cp cd s hs
          · split at hs
            · exact flushSense_length_le _ _ _ s hs
            · exact ih cp cd s hs

/-- C7: bounded definitions.  Every Sense produced by extract_senses keeps
at most max_definitions_per_sense definitions (the flush truncates the
accumulated list), and a Noun section with five meaningful definition
lines under a cap of three keeps exactly the first three, in source
order. -/
theorem c7_bounded_definitions :
    (∀ (text : String) (allowed : List String) (m : Nat),
        ∀ s ∈ extract_senses text allowed m, s.definitions.length ≤ m)
      ∧ extract_senses "===Noun===\n# d1\n# d2\n# d3\n# d4\n# d5" ["Noun"] 3
        = [⟨"Noun", ["d1", "d2", "d3"]⟩] := by
  constructor
  · intro text allowed m s hs
    exact sensesGo_length_le allowed m _ none [] s hs
  · decide

/-- Witness for C7: the five-definition, cap-three instance. -/
theorem c7_bounded_definitions_witness :
    (Sense.mk "Noun" ["d1", "d2", "d3"]).definitions.length ≤ 3 :=
  c7_bounded_definitions.1 "===Noun===\n# d1\n# d2\n# d3\n# d4\n# d5" ["Noun"] 3
    (Sense.mk "Noun" ["d1", "d2", "d3"]) (by decide)

theorem flushSense_inv (cp : Option (List Char)) (cd : List (List Char)) (m : Nat)
    (hm : 1 ≤ m) (hcd : ∀ d ∈ cd, d ≠ [] ∧ containsAlnum d = true) :
    ∀ s ∈ flushSense cp cd m,
      s.pos ≠ "" ∧ ∃ d ∈ s.definitions, d ≠ "" ∧ containsAlnum d.data = true := by
  intro s hs
  cases cp with
  | none => exact (List.not_mem_nil s hs).elim
  | some p =>
    rw [show flushSense (some p) cd m
        = (if (!p.isEmpty && !cd.isEmpty) = true then
            [⟨String.mk p, (cd.take m).map (fun d => String.mk d)⟩] else []) from rfl] at hs
    by_cases hg : (!p.isEmpty && !cd.isEmpty) = true
    · rw [if_pos hg] at hs
      rcases List.mem_cons.1 hs with h | h
      · subst h
        rw [Bool.and_eq_true] at hg
        obtain ⟨hp, hcde⟩ := hg
        constructor
        · intro he
          have hpd : p = [] := congrArg String.data he
          rw [hpd] at hp
          simp at hp
        · cases cd with
          | nil => simp at hcde
          | cons d0 tl =>
            cases m with
            | zero => omega
            | succ k =>
              refine ⟨String.mk d0, ?_, ?_, ?_⟩
              · simp [List.take_succ_cons]
              · intro he
                exact (hcd d0 (List.mem_cons_self d0 tl)).1 (congrArg String.data he)
              · exact (hcd d0 (List.mem_cons_self d0 tl)).2
      · exact (List.not_mem_nil s h).elim
    · rw [if_neg hg] at hs
      exact (List.not_mem_nil s hs).elim

theorem sensesGo_inv (allowed : List String) (m : Nat) (hm : 1 ≤ m) :
    ∀ (lines : List (List Char)) (cp : Option (List Char)) (cd : List (List Char)),
      (∀ d ∈ cd, d ≠ [] ∧ containsAlnum d = true) →
      ∀ s ∈ sensesGo allowed m lines cp cd,
        s.pos ≠ "" ∧ ∃ d ∈ s.definitions, d ≠ "" ∧ containsAlnum d.data = true := by
  intro lines
  induction lines with
  | nil => intro cp cd hcd s hs; exact flushSense_inv cp cd m hm hcd s hs
  | cons raw rest ih =>
    intro cp cd hcd s hs
    simp only [sensesGo] at hs
    split at hs
    · exact ih cp cd hcd s hs
    · split at hs
      · rcases List.mem_append.1 hs with h | h
        · exact flushSense_inv _ _ m hm hcd s h
        · refine ih _ _ ?_ s h
          intro d hd
          exact (List.not_mem_nil d hd).elim
      · split at hs
        · exact ih cp cd hcd s hs
        · split at hs
          · split at hs
            · exact ih cp cd hcd s hs
            · split at hs
              · rename_i htext
                refine ih _ _ ?_ s hs
                intro d hd
                rcases List.mem_append.1 hd with hd | hd
                · exact hcd d hd
                · rcases List.mem_cons.1 hd with hd | hd
                  · subst hd
                    rw [Bool.and_eq_true] at htext
                    refine ⟨?_, htext.2⟩
                    intro he
                    rw [he] at htext
                    simp at htext
                  · exact (List.not_mem_nil d hd).elim
              · exact ih cp cd hcd s hs
          · split at hs
            · exact flushSense_inv _ _ m hm hcd s hs
            · exact ih cp cd hcd s hs

/-- C8 (amended): for every input text, every allowed part-of-speech
set, and every cap of at least one, every Sense returned by extract_senses
has a non-empty part-of-speech string and at least one non-empty
definition containing an alphanumeric character. -/
theorem c8_sense_invariant :
    ∀ (text : String) (allowed : List String) (m : Nat), 1 ≤ m →
      ∀ s ∈ extract_senses text allowed m,
        s.pos ≠ "" ∧ ∃ d ∈ s.definitions, d ≠ "" ∧ containsAlnum d.data = true := by
  intro text allowed m hm s hs
  refine sensesGo_inv allowed m hm _ none [] ?_ s hs
  intro d hd
  exact (List.not_mem_nil d hd).elim

/-- Witness for C8: a one-definition Noun section under cap 1. -/
theorem c8_sense_invariant_witness :
    (Sense.mk "Noun" ["cat"]).pos ≠ ""
      ∧ ∃ d ∈ (Sense.mk "Noun" ["cat"]).definitions,
          d ≠ "" ∧ containsAlnum d.data = true :=
  c8_sense_invariant "===Noun===\n# cat" ["Noun"] 1 (by decide)
    (Sense.mk "Noun" ["cat"]) (by decide)

/-- The label/qualifier rendering formula of the source: the first at most
six non-empty (stripped) arguments after dropping a leading language code,
joined with ", " inside parentheses; empty list of labels gives the empty
string. -/
def labelJoin (args : List String) : String :=
  String.mk
    (let labs := ((drop_lang_code (args.map String.data)).map pyStrip).filter (fun x => !x.isEmpty)
     if labs.isEmpty then [] else '(' :: (joinSep (", ".data) (labs.take 6) ++ [')']))

/-- C3 (amended): for every label/qualifier invocation (lb, lbl, label,
labels, matched case-insensitively on the stripped name), render_template
joins the first at most six non-empty arguments (after dropping a leading
language code) with ", " wrapped in parentheses; with no non-empty
arguments it returns the empty string. -/
theorem c3_label_join_capped :
    ∀ (name : String) (args : List String),
      (pyLower (pyStrip name.data) = "lb".data ∨ pyLower (pyStrip name.data) = "lbl".data
        ∨ pyLower (pyStrip name.data) = "label".data
        ∨ pyLower (pyStrip name.data) = "labels".data) →
      render_template name args = labelJoin args := by
  intro name args h
  unfold render_template renderTemplateL labelJoin
  rcases h with h | h | h | h <;> rw [h] <;> simp

/-- Witness for C3: a two-label invocation with a language code. -/
theorem c3_label_join_capped_witness :
    render_template "lb" ["en", "obsolete", "slang"] = labelJoin ["en", "obsolete", "slang"] :=
  c3_label_join_capped "lb" ["en", "obsolete", "slang"] (Or.inl (by decide))

/-- Characters that trigger no cleanup stage: not whitespace, not a brace,
not an angle bracket, not a square bracket, not a quote. -/
def plainChar (c : Char) : Bool :=
  !pyIsSpace c && c != '{' && c != '<' && c != '[' && c != quoteChar

theorem plain_parts {c : Char} (h : plainChar c = true) :
    pyIsSpace c = false ∧ c ≠ '{' ∧ c ≠ '<' ∧ c ≠ '[' ∧ c ≠ quoteChar := by
  simp only [plainChar, Bool.and_eq_true, Bool.not_eq_true', bne_iff_ne] at h
  exact ⟨h.1.1.1.1, h.1.1.1.2, h.1.1.2, h.1.2, h.2⟩

theorem char_toLower_ne_lt {c : Char} (hc : c ≠ '<') : Char.toLower c ≠ '<' := by
  rw [show Char.toLower c
      = (if c.toNat ≥ 65 ∧ c.toNat ≤ 90 then Char.ofNat (c.toNat + 32) else c) from rfl]
  split
  · rename_i h
    intro he
    have hval : (c.toNat + 32).isValidChar := Or.inl (by omega)
    have h60 : (Char.ofNat (c.toNat + 32)).toNat = Char.toNat '<' := congrArg Char.toNat he
    rw [Char.ofNat, dif_pos hval] at h60
    have : c.toNat + 32 = 60 := h60
    omega
  · exact hc

theorem prefix_cons_false {p c : Char} {ps r : List Char} (h : c ≠ p) :
    (p :: ps).isPrefixOf (c :: r) = false := by
  simp [List.isPrefixOf]
  intro he
  exact absurd he.symm h

theorem ciStarts_cons_false {p c : Char} {ps r : List Char} (h : Char.toLower c ≠ p) :
    ciStarts (p :: ps) (c :: r) = false := by
  unfold ciStarts pyLower
  simp [List.take_succ_cons]
  intro he
  exact absurd he h

theorem mem_tail {α : Type} {c : α} {r : List α} {P : α → Prop}
    (h : ∀ d ∈ c :: r, P d) : ∀ d ∈ r, P d :=
  fun d hd => h d (List.mem_cons_of_mem c hd)

theorem removeCommentsGo_id (fuel : Nat) :
    ∀ l : List Char, (∀ c ∈ l, plainChar c = true) → removeCommentsGo fuel l = l := by
  induction fuel with
  | zero => intro l _; rfl
  | succ fuel ih =>
    intro l hp
    cases l with
    | nil => rfl
    | cons c r =>
      have hc := plain_parts (hp c (List.mem_cons_self c r))
      have hpre : ("<!--".data).isPrefixOf (c :: r) = false := prefix_cons_false hc.2.2.1
      unfold removeCommentsGo
      rw [hpre]
      simp only [Bool.false_eq_true, if_false]
      rw [ih r (mem_tail hp)]

theorem removeRefBlocksGo_id (fuel : Nat) :
    ∀ l : List Char, (∀ c ∈ l, plainChar c = true) → removeRefBlocksGo fuel l = l := by
  induction fuel with
  | zero => intro l _; rfl
  | succ fuel ih =>
    intro l hp
    cases l with
    | nil => rfl
    | cons c r =>
      have hc := plain_parts (hp c (List.mem_cons_self c r))
      have hpre : ciStarts ("<ref".data) (c :: r) = false :=
        ciStarts_cons_false (char_toLower_ne_lt hc.2.2.1)
      unfold removeRefBlocksGo
      rw [hpre]
      simp only [Bool.false_and, Bool.false_eq_true, if_false]
      rw [ih r (mem_tail hp)]

theorem removeRefSelfGo_id (fuel : Nat) :
    ∀ l : List Char, (∀ c ∈ l, plainChar c = true) → removeRefSelfGo fuel l = l := by
  induction fuel with
  | zero => intro l _; rfl
  | succ fuel ih =>
    intro l hp
    cases l with
    | nil => rfl
    | cons c r =>
      have hc := plain_parts (hp c (List.mem_cons_self c r))
      have hpre : ciStarts ("<ref".data) (c :: r) = false :=
        ciStarts_cons_false (char_toLower_ne_lt hc.2.2.1)
      unfold removeRefSelfGo
      rw [hpre]
      simp only [Bool.false_and, Bool.false_eq_true, if_false]
      rw [ih r (mem_tail hp)]

theorem removeTagBlockGo_id (os closer : List Char) (fuel : Nat) :
    ∀ l : List Char, (∀ c ∈ l, plainChar c = true) →
      removeTagBlockGo ('<' :: os) closer fuel l = l := by
  induction fuel with
  | zero => intro l _; rfl
  | succ fuel ih =>
    intro l hp
    cases l with
    | nil => rfl
    | cons c r =>
      have hc := plain_parts (hp c (List.mem_cons_self c r))
      have hpre : ciStarts ('<' :: os) (c :: r) = false :=
        ciStarts_cons_false (char_toLower_ne_lt hc.2.2.1)
      unfold removeTagBlockGo
      rw [hpre]
      simp only [Bool.false_and, Bool.false_eq_true, if_false]
      rw [ih r (mem_tail hp)]

theorem removeTablesGo_id (fuel : Nat) :
    ∀ l : List Char, (∀ c ∈ l, plainChar c = true) → removeTablesGo fuel l = l := by
  induction fuel with
  | zero => intro l _; rfl
  | succ fuel ih =>
    intro l hp
    cases l with
    | nil => rfl
    | cons c r =>
      have hc := plain_parts (hp c (List.mem_cons_self c r))
      have hpre : tableOpenPat.isPrefixOf (c :: r) = false := prefix_cons_false hc.2.1
      unfold removeTablesGo
      rw [hpre]
      simp only [Bool.false_eq_true, if_false]
      rw [ih r (mem_tail hp)]

theorem containsSub_false_of_ne {p : Char} {ps : List Char} :
    ∀ l : List Char, (∀ c ∈ l, c ≠ p) → containsSub (p :: ps) l = false := by
  intro l
  induction l with
  | nil => intro _; rfl
  | cons c r ih =>
    intro hp
    unfold containsSub
    rw [prefix_cons_false (hp c (List.mem_cons_self c r)), ih (mem_tail hp)]
    rfl

theorem replaceTemplatesNestedL_id {l : List Char} (hp : ∀ c ∈ l, plainChar c = true) :
    replaceTemplatesNestedL l = l := by
  unfold replaceTemplatesNestedL
  rw [show tplOpenPat = '{' :: ['{'] from rfl]
  rw [containsSub_false_of_ne l (fun c hc => (plain_parts (hp c hc)).2.1)]
  rfl

theorem wikilinksGo_id (fuel : Nat) :
    ∀ l : List Char, (∀ c ∈ l, plainChar c = true) → wikilinksGo fuel l = l := by
  induction fuel with
  | zero => intro l _; rfl
  | succ fuel ih =>
    intro l hp
    cases l with
    | nil => rfl
    | cons c r =>
      have hc := plain_parts (hp c (List.mem_cons_self c r))
      have hpre : linkOpenPat.isPrefixOf (c :: r) = false := prefix_cons_false hc.2.2.2.1
      unfold wikilinksGo
      rw [hpre]
      simp only [Bool.false_eq_true, if_false]
      rw [ih r (mem_tail hp)]

theorem italicsGo_id (fuel : Nat) :
    ∀ l : List Char, (∀ c ∈ l, plainChar c = true) → italicsGo fuel l = l := by
  induction fuel with
  | zero => intro l _; rfl
  | succ fuel ih =>
    intro l hp
    cases l with
    | nil => rfl
    | cons c r =>
      have hc := plain_parts (hp c (List.mem_cons_self c r))
      have hq : (c == quoteChar) = false := by
        simp only [beq_eq_false_iff_ne, ne_eq]
        exact hc.2.2.2.2
      unfold italicsGo
      rw [hq]
      simp only [Bool.false_eq_true, if_false]
      rw [ih r (mem_tail hp)]

theorem removeTagsGo_id (fuel : Nat) :
    ∀ l : List Char, (∀ c ∈ l, plainChar c = true) → removeTagsGo fuel l = l := by
  induction fuel with
  | zero => intro l _; rfl
  | succ fuel ih =>
    intro l hp
    cases l with
    | nil => rfl
    | cons c r =>
      have hc := plain_parts (hp c (List.mem_cons_self c r))
      have hq : (c == '<') = false := by
        simp only [beq_eq_false_iff_ne, ne_eq]
        exact hc.2.2.1
      unfold removeTagsGo
      rw [hq]
      simp only [Bool.false_eq_true, if_false]
      rw [ih r (mem_tail hp)]

theorem wsSubGo_id :
    ∀ l : List Char, (∀ c ∈ l, pyIsSpace c = false) → wsSubGo false l = l := by
  intro l
  induction l with
  | nil => intro _; rfl
  | cons c r ih =>
    intro hp
    unfold wsSubGo
    rw [hp c (List.mem_cons_self c r)]
    simp only [Bool.false_eq_true, if_false]
    rw [ih (mem_tail hp)]

theorem pyStrip_id {l : List Char} (hp : ∀ c ∈ l, pyIsSpace c = false) :
    pyStrip l = l := by
  have hd : ∀ t : List Char, (∀ c ∈ t, pyIsSpace c = false) → t.dropWhile pyIsSpace = t := by
    intro t ht
    cases t with
    | nil => rfl
    | cons c r =>
      rw [List.dropWhile_cons, ht c (List.mem_cons_self c r)]
      simp
  unfold pyStrip
  rw [hd l hp]
  rw [hd l.reverse (fun c hc => hp c (List.mem_reverse.1 hc))]
  exact List.reverse_reverse l

theorem punctSpaceGo_id (fuel : Nat) :
    ∀ l : List Char, (∀ c ∈ l, pyIsSpace c = false) → punctSpaceGo fuel l = l := by
  induction fuel with
  | zero => intro l _; rfl
  | succ fuel ih =>
    intro l hp
    cases l with
    | nil => rfl
    | cons c r =>
      unfold punctSpaceGo
      rw [hp c (List.mem_cons_self c r)]
      simp only [Bool.false_eq_true, if_false]
      rw [ih r (mem_tail hp)]

theorem replaceAllGo_sp_id (fuel : Nat) :
    ∀ l : List Char, (∀ c ∈ l, pyIsSpace c = false) →
      replaceAllGo (" )".data) (")".data) fuel l = l := by
  induction fuel with
  | zero => intro l _; rfl
  | succ fuel ih =>
    intro l hp
    cases l with
    | nil => rfl
    | cons c r =>
      have hcs : c ≠ ' ' := by
        intro he
        have := hp c (List.mem_cons_self c r)
        rw [he] at this
        simp [pyIsSpace] at this
      have hpre : ((" )".data)).isPrefixOf (c :: r) = false := prefix_cons_false hcs
      unfold replaceAllGo
      rw [hpre]
      simp only [Bool.false_and, Bool.false_eq_true, if_false]
      rw [ih r (mem_tail hp)]

theorem replaceAllGo_ps_id (fuel : Nat) :
    ∀ l : List Char, (∀ c ∈ l, pyIsSpace c = false) →
      replaceAllGo (("( ".data)) (("(".data)) fuel l = l := by
  induction fuel with
  | zero => intro l _; rfl
  | succ fuel ih =>
    intro l hp
    cases l with
    | nil => rfl
    | cons c r =>
      have hpre : (("( ".data)).isPrefixOf (c :: r) = false := by
        cases r with
        | nil => simp [List.isPrefixOf]
        | cons d r' =>
          have hds : d ≠ ' ' := by
            intro he
            have := hp d (List.mem_cons_of_mem c (List.mem_cons_self d r'))
            rw [he] at this
            simp [pyIsSpace] at this
          simp [List.isPrefixOf]
          intro _ he
          exact absurd he.symm hds
      unfold replaceAllGo
      rw [hpre]
      simp only [Bool.false_and, Bool.false_eq_true, if_false]
      rw [ih r (mem_tail hp)]

theorem cleanL_plain {l : List Char} (hp : ∀ c ∈ l, plainChar c = true) :
    cleanL l = if containsAlnum l then l else [] := by
  have hns : ∀ c ∈ l, pyIsSpace c = false := fun c hc => (plain_parts (hp c hc)).1
  cases l with
  | nil => rfl
  | cons c0 r0 =>
    unfold cleanL
    simp only [List.isEmpty_cons, Bool.false_eq_true, if_false]
    rw [show removeComments (c0 :: r0) = c0 :: r0 from removeCommentsGo_id _ _ hp]
    rw [show removeRefBlocks (c0 :: r0) = c0 :: r0 from removeRefBlocksGo_id _ _ hp]
    rw [show removeRefSelf (c0 :: r0) = c0 :: r0 from removeRefSelfGo_id _ _ hp]
    rw [show removeNowiki (c0 :: r0) = c0 :: r0 from removeTagBlockGo_id _ _ _ _ hp]
    rw [show removeMath (c0 :: r0) = c0 :: r0 from removeTagBlockGo_id _ _ _ _ hp]
    rw [show removeTables (c0 :: r0) = c0 :: r0 from removeTablesGo_id _ _ hp]
    rw [replaceTemplatesNestedL_id hp]
    rw [show wikilinks (c0 :: r0) = c0 :: r0 from wikilinksGo_id _ _ hp]
    rw [show italics (c0 :: r0) = c0 :: r0 from italicsGo_id _ _ hp]
    rw [show removeTags (c0 :: r0) = c0 :: r0 from removeTagsGo_id _ _ hp]
    rw [show wsSub (c0 :: r0) = c0 :: r0 from wsSubGo_id _ hns]
    rw [pyStrip_id hns]
    rw [show replaceAll ((" )".data)) ((")".data)) (c0 :: r0) = c0 :: r0 from
      replaceAllGo_sp_id _ _ hns]
    rw [show replaceAll (("( ".data)) (("(".data)) (c0 :: r0) = c0 :: r0 from
      replaceAllGo_ps_id _ _ hns]
    rw [show punctSpace (c0 :: r0) = c0 :: r0 from punctSpaceGo_id _ _ hns]

/-- C1 (amended): clean_wikitext is idempotent on inputs made solely of
characters that trigger none of the cleanup stages (no whitespace, no
brace, no angle bracket, no square bracket, no quote); on such text clean
acts as the meaningfulness filter alone. -/
theorem c1_clean_idempotent_plain :
    ∀ s : String, (∀ c ∈ s.data, plainChar c = true) →
      clean_wikitext (clean_wikitext s) = clean_wikitext s := by
  intro s hp
  show String.mk (cleanL (String.mk (cleanL s.data)).data) = String.mk (cleanL s.data)
  rw [show (String.mk (cleanL s.data)).data = cleanL s.data from rfl]
  rw [cleanL_plain hp]
  by_cases ha : containsAlnum s.data = true
  · rw [if_pos ha, cleanL_plain hp, if_pos ha]
  · rw [if_neg ha]
    rfl

/-- Witness for C1: a plain word is a fixed point of clean_wikitext. -/
theorem c1_clean_idempotent_plain_witness :
    clean_wikitext (clean_wikitext "hello") = clean_wikitext "hello" :=
  c1_clean_idempotent_plain "hello" (by decide)
